import Mathlib

/-!
Verification of the packet codec layer of the `rust-socketio` repository.

The development shallowly embeds the two source files
`engineio/src/packet.rs` and `socketio/src/packet.rs`.  Rust `&str` values
are modelled as `List Char` (the UTF-8 `Bytes`/`String` boundary,
`std::str::from_utf8` / `Bytes::from(String)`, is the standard bijection
between valid UTF-8 byte strings and character sequences, so text-level
functions are stated over `List Char`); raw `Bytes` are `List Nat` with
every element intended below 256; `u8`/`usize`/`i32` become `Nat`/`Int`
with explicit underflow/overflow handling at the operations where the
source can underflow or overflow.  Fallible operations return
`Except`/`Option`; a distinguished `panic` constructor models a Rust
debug-mode arithmetic-underflow abort where the source performs an
unchecked subtraction.

The `Error` enums of the two crates live in `error.rs` files that are not
part of the provided sources; their variants are modelled from the spec's
error taxonomy (IncompletePacket, InvalidPacketId, InvalidPacket,
InvalidJson, InvalidUtf8) plus a base64 decode-error variant for §4.3
step 4.
-/

/-! ## Basic character and decimal-digit utilities -/

/-- Rust's `char::is_ascii_digit`. -/
def isAsciiDigit (c : Char) : Bool :=
  48 ≤ c.toNat && c.toNat ≤ 57

/-- The ASCII digit character for a decimal digit value (used for values
below 10; larger values clamp to `'9'`, a case never reached). -/
def digitChar (k : Nat) : Char :=
  if k = 0 then '0'
  else if k = 1 then '1'
  else if k = 2 then '2'
  else if k = 3 then '3'
  else if k = 4 then '4'
  else if k = 5 then '5'
  else if k = 6 then '6'
  else if k = 7 then '7'
  else if k = 8 then '8'
  else '9'

/-- Fuel-driven digit expansion (the fuel only serves structural
recursion; `natToDigits` supplies enough). -/
def natToDigitsAux : Nat → Nat → List Char
  | 0, _ => []
  | fuel + 1, n =>
    if n < 10 then [digitChar n]
    else natToDigitsAux fuel (n / 10) ++ [digitChar (n % 10)]

/-- Decimal representation of a natural number, most significant digit
first: the `Display` implementation used by `write!(buffer, "{}", n)`. -/
def natToDigits (n : Nat) : List Char :=
  natToDigitsAux (n + 1) n

/-- Left fold accumulating the standard decimal value of a digit string. -/
def digitsToNatAux (a : Nat) (l : List Char) : Nat :=
  l.foldl (fun acc c => 10 * acc + (c.toNat - 48)) a

/-- Standard decimal value of a digit string. -/
def digitsToNat (l : List Char) : Nat :=
  digitsToNatAux 0 l

/-- Rust's `str::parse::<u8>` on a candidate attachment-count string: an
optional leading `+` sign, at least one ASCII digit, value at most 255. -/
def parseU8 (s : List Char) : Option Nat :=
  let t := match s with
    | '+' :: rest => rest
    | _ => s
  if t ≠ [] ∧ ∀ c ∈ t, isAsciiDigit c then
    let n := digitsToNat t
    if n ≤ 255 then some n else none
  else none

/-- A non-empty all-digit string's decimal value. -/
def parseNonNegDigits (t : List Char) : Option Nat :=
  if t ≠ [] ∧ ∀ c ∈ t, isAsciiDigit c then some (digitsToNat t) else none

/-- Rust's `str::parse::<i32>`: optional sign, at least one ASCII digit,
value within the `i32` range. -/
def parseI32 (s : List Char) : Option Int :=
  match s with
  | [] => none
  | c :: t =>
    if c = '-' then
      match parseNonNegDigits t with
      | some n => if n ≤ 2147483648 then some (-(n : Int)) else none
      | none => none
    else if c = '+' then
      match parseNonNegDigits t with
      | some n => if n ≤ 2147483647 then some (n : Int) else none
      | none => none
    else
      match parseNonNegDigits (c :: t) with
      | some n => if n ≤ 2147483647 then some (n : Int) else none
      | none => none

/-- Rust's `str::split_once(c)`: the parts before and after the first
occurrence of `c`, or `none` when `c` does not occur. -/
def splitOnce (c : Char) : List Char → Option (List Char × List Char)
  | [] => none
  | x :: xs =>
    if x = c then some ([], xs)
    else (splitOnce c xs).map (fun p => (x :: p.1, p.2))

/-- Take exactly `n` elements, returning them and the remainder, or `none`
when fewer than `n` remain (the `for _ in 0..cnt` read loop with
`ok_or(IncompletePacket)`). -/
def readN : Nat → List Char → Option (List Char × List Char)
  | 0, cs => some ([], cs)
  | _ + 1, [] => none
  | n + 1, c :: cs => (readN n cs).map (fun p => (c :: p.1, p.2))

/-! ## UTF-8 (the `&str`/`Bytes` boundary) -/

/-- UTF-8 encoding of one scalar value. -/
def utf8EncodeChar (c : Char) : List Nat :=
  let n := c.toNat
  if n < 128 then [n]
  else if n < 2048 then [192 + n / 64, 128 + n % 64]
  else if n < 65536 then [224 + n / 4096, 128 + n / 64 % 64, 128 + n % 64]
  else [240 + n / 262144, 128 + n / 4096 % 64, 128 + n / 64 % 64, 128 + n % 64]

/-- UTF-8 encoding of a character sequence: `Bytes::from(String)`. -/
def utf8Encode (cs : List Char) : List Nat :=
  cs.flatMap utf8EncodeChar

/-- Strict UTF-8 decoding (`std::str::from_utf8`): rejects stray or missing
continuation bytes, overlong forms, surrogates, and values above U+10FFFF. -/
def utf8Decode : List Nat → Option (List Char)
  | [] => some []
  | b :: rest =>
    if b < 128 then
      (utf8Decode rest).map (fun cs => Char.ofNat b :: cs)
    else if b < 194 then none
    else if b < 224 then
      match rest with
      | b2 :: rest2 =>
        if 128 ≤ b2 ∧ b2 < 192 then
          (utf8Decode rest2).map
            (fun cs => Char.ofNat ((b - 192) * 64 + (b2 - 128)) :: cs)
        else none
      | _ => none
    else if b < 240 then
      match rest with
      | b2 :: b3 :: rest3 =>
        if (128 ≤ b2 ∧ b2 < 192) ∧ (128 ≤ b3 ∧ b3 < 192)
            ∧ (b = 224 → 160 ≤ b2) ∧ (b = 237 → b2 < 160) then
          (utf8Decode rest3).map
            (fun cs =>
              Char.ofNat ((b - 224) * 4096 + (b2 - 128) * 64 + (b3 - 128)) :: cs)
        else none
      | _ => none
    else if b < 245 then
      match rest with
      | b2 :: b3 :: b4 :: rest4 =>
        if (128 ≤ b2 ∧ b2 < 192) ∧ (128 ≤ b3 ∧ b3 < 192) ∧ (128 ≤ b4 ∧ b4 < 192)
            ∧ (b = 240 → 144 ≤ b2) ∧ (b = 244 → b2 < 144) then
          (utf8Decode rest4).map
            (fun cs =>
              Char.ofNat ((b - 240) * 262144 + (b2 - 128) * 4096
                + (b3 - 128) * 64 + (b4 - 128)) :: cs)
        else none
      | _ => none
    else none

/-! ## Engine packet codec (`engineio/src/packet.rs`) -/

/-- The `engine.io` `PacketId` enumeration. -/
inductive EngPacketId
  | Open
  | Close
  | Ping
  | Pong
  | Message
  | Upgrade
  | Noop
deriving DecidableEq, Repr

/-- `impl From<PacketId> for u8`. -/
def engIdToU8 : EngPacketId → Nat
  | .Open => 0
  | .Close => 1
  | .Ping => 2
  | .Pong => 3
  | .Message => 4
  | .Upgrade => 5
  | .Noop => 6

/-- `PacketId::to_string_byte`: `u8::from(self) + b'0'`. -/
def engToStringByte (i : EngPacketId) : Nat :=
  engIdToU8 i + 48

/-- Error enum of the `engineio` crate.  Modelled from the spec: `error.rs`
is not among the provided sources; the variants follow the spec's §7
taxonomy, plus `InvalidBase64` for §4.3 step 4's "decode error on invalid
base64".  `InvalidPacketId` carries the offending byte. -/
inductive EngError
  | IncompletePacket
  | InvalidPacketId (b : Nat)
  | InvalidUtf8
  | InvalidBase64
deriving DecidableEq, Repr

/-- `impl TryFrom<u8> for PacketId`: both the raw values 0–6 and the ASCII
digits `'0'`–`'6'` (48–54) are accepted; anything else is
`InvalidPacketId(b)`. -/
def engPacketIdTryFrom (b : Nat) : Except EngError EngPacketId :=
  match b with
  | 0 | 48 => .ok .Open
  | 1 | 49 => .ok .Close
  | 2 | 50 => .ok .Ping
  | 3 | 51 => .ok .Pong
  | 4 | 52 => .ok .Message
  | 5 | 53 => .ok .Upgrade
  | 6 | 54 => .ok .Noop
  | _ => .error (.InvalidPacketId b)

/-- Mapping from the canonical integer 0–6 to the packet type (helper for
stating that raw and ASCII discriminators agree). -/
def engIdOfNat : Nat → EngPacketId
  | 0 => .Open
  | 1 => .Close
  | 2 => .Ping
  | 3 => .Pong
  | 4 => .Message
  | 5 => .Upgrade
  | _ => .Noop

/-- An `engine.io` `Packet`: a type and opaque payload bytes. -/
structure EngPacket where
  packet_id : EngPacketId
  data : List Nat
deriving DecidableEq, Repr

/-- `impl From<Packet> for Bytes`: the ASCII type digit followed by the raw
payload bytes. -/
def engEncode (p : EngPacket) : List Nat :=
  engToStringByte p.packet_id :: p.data

/-- `impl TryFrom<Bytes> for FramePayload`: the first byte (empty input is
`IncompletePacket`) selects the packet type, the remainder is the payload
verbatim. -/
def engFrameDecode (bytes : List Nat) : Except EngError EngPacket :=
  match bytes with
  | [] => .error .IncompletePacket
  | b :: rest =>
    match engPacketIdTryFrom b with
    | .error e => .error e
    | .ok i => .ok ⟨i, rest⟩

/-! ## Base64 (the `base64` crate's `general_purpose::STANDARD` engine) -/

/-- Value of one standard-alphabet base64 character. -/
def base64CharVal (c : Char) : Option Nat :=
  let n := c.toNat
  if 65 ≤ n ∧ n ≤ 90 then some (n - 65)
  else if 97 ≤ n ∧ n ≤ 122 then some (n - 97 + 26)
  else if 48 ≤ n ∧ n ≤ 57 then some (n - 48 + 52)
  else if c = '+' then some 62
  else if c = '/' then some 63
  else none

/-- Decode one final base64 quantum (handles `=` padding, requiring the
canonical zero trailing bits that `STANDARD` enforces). -/
def base64Quantum (a b : Char) (c d : Char) : Option (List Nat) :=
  match base64CharVal a, base64CharVal b with
  | some va, some vb =>
    if c = '=' then
      if d = '=' then
        if (va * 64 + vb) % 16 = 0 then some [(va * 64 + vb) / 16] else none
      else none
    else
      match base64CharVal c with
      | some vc =>
        if d = '=' then
          if (va * 262144 + vb * 4096 + vc * 64) % 256 % 4 = 0 then
            some [va * 4 + vb / 16, (vb % 16) * 16 + vc / 4]
          else none
        else
          match base64CharVal d with
          | some vd =>
            let q := va * 262144 + vb * 4096 + vc * 64 + vd
            some [q / 65536, q / 256 % 256, q % 256]
          | none => none
      | none => none
  | _, _ => none

/-- `general_purpose::STANDARD.decode`: length must be a multiple of four,
`=` padding only in the final quantum, canonical trailing bits. -/
def base64Decode : List Char → Option (List Nat)
  | [] => some []
  | a :: b :: c :: d :: rest =>
    match base64Quantum a b c d with
    | some bytes =>
      if rest = [] then some bytes
      else if c = '=' ∨ d = '=' then none
      else (base64Decode rest).map (fun bs => bytes ++ bs)
    | none => none
  | _ => none

/-- Character of the standard base64 alphabet at a 6-bit index. -/
def base64Alphabet (v : Nat) : Char :=
  if v < 26 then Char.ofNat (65 + v)
  else if v < 52 then Char.ofNat (97 + (v - 26))
  else if v < 62 then Char.ofNat (48 + (v - 52))
  else if v = 62 then '+'
  else '/'

/-- Standard base64 encoding with padding (`general_purpose::STANDARD`). -/
def base64Encode : List Nat → List Char
  | [] => []
  | [x] =>
    let v := (x % 256) * 16
    [base64Alphabet ((x % 256) / 4), base64Alphabet (v % 64), '=', '=']
  | [x, y] =>
    let q := (x % 256) * 1024 + (y % 256) * 4
    [base64Alphabet (q / 4096), base64Alphabet (q / 64 % 64),
      base64Alphabet (q % 64), '=']
  | x :: y :: z :: rest =>
    let q := (x % 256) * 65536 + (y % 256) * 256 + z % 256
    base64Alphabet (q / 262144) :: base64Alphabet (q / 4096 % 64)
      :: base64Alphabet (q / 64 % 64) :: base64Alphabet (q % 64)
      :: base64Encode rest

/-! ## Engine text-payload codec (`TryFrom<Bytes> for StrPayload`)

The decoder is embedded exactly as written, including its length
accumulation `cnt += cnt * 10 + c - '0'` (so two digits `d1 d0` accumulate
to `11 * d1 + d0`, not `10 * d1 + d0`), the `is_bin` flag that is declared
outside the frame loop and set but never reset, and the unchecked
`cnt -= 2` in the `'b'` arm.  Unsigned underflow in the source's
subtractions is modelled by the `panic` constructor (Rust debug-mode
semantics); the non-compiling `chars.next() - '0'` is modelled as
`IncompletePacket` when the iterator is exhausted and as an underflow
panic when the character is below `'0'`. -/

/-- Result of decoding one whole text-format payload. -/
inductive StrRes
  | ok (ps : List EngPacket)
  | err (e : EngError)
  | panic
deriving DecidableEq, Repr

/-- Result of one iteration of the source's frame loop. -/
inductive StepRes
  | frame (p : EngPacket) (isBin : Bool) (rest : List Char)
  | err (e : EngError)
  | panic
deriving DecidableEq, Repr

/-- The inner length loop: digits accumulate via `cnt += cnt * 10 + d`, a
`':'` ends the loop, anything else (or running out of input) is
`IncompletePacket`. -/
def lenLoop (cnt : Nat) : List Char → Except EngError (Nat × List Char)
  | [] => .error .IncompletePacket
  | c :: rest =>
    if isAsciiDigit c then lenLoop (cnt + (cnt * 10 + (c.toNat - 48))) rest
    else if c = ':' then .ok (cnt, rest)
    else .error .IncompletePacket

/-- Read the frame payload: take `cnt` characters, then build the packet
data, base64-decoding when `is_bin` is set and taking the UTF-8 bytes of
the text otherwise. -/
def strReadPayload (pid : EngPacketId) (isBin : Bool) (cnt : Nat)
    (cs : List Char) : StepRes :=
  match readN cnt cs with
  | none => .err .IncompletePacket
  | some (payload, remaining) =>
    if isBin then
      match base64Decode payload with
      | none => .err .InvalidBase64
      | some bs => .frame ⟨pid, bs⟩ isBin remaining
    else .frame ⟨pid, utf8Encode payload⟩ isBin remaining

/-- One iteration of the frame loop of `TryFrom<Bytes> for StrPayload`. -/
def strStep (isBin : Bool) (cs : List Char) : StepRes :=
  match lenLoop 0 cs with
  | .error e => .err e
  | .ok (cnt, rest) =>
    if cnt = 0 then .err .IncompletePacket
    else
      match rest with
      | [] => .err .IncompletePacket
      | c :: rest2 =>
        if isAsciiDigit c then
          match engPacketIdTryFrom (c.toNat - 48) with
          | .error e => .err e
          | .ok pid => strReadPayload pid isBin (cnt - 1) rest2
        else if c = 'b' then
          if cnt < 2 then .panic
          else
            match rest2 with
            | [] => .err .IncompletePacket
            | c2 :: rest3 =>
              if c2.toNat < 48 then .panic
              else
                match engPacketIdTryFrom (c2.toNat - 48) with
                | .error e => .err e
                | .ok pid => strReadPayload pid true (cnt - 2) rest3
        else .err .IncompletePacket

/-- The frame loop, with fuel bounding the number of iterations (each
successful iteration consumes at least two characters, so `length + 1`
fuel is never exhausted on terminating runs). -/
def strDecodeAux : Nat → Bool → List Char → List EngPacket → StrRes
  | 0, _, _, _ => .err .IncompletePacket
  | fuel + 1, isBin, cs, acc =>
    match strStep isBin cs with
    | .err e => .err e
    | .panic => .panic
    | .frame p isBin2 rest =>
      if rest.isEmpty then .ok (acc ++ [p])
      else strDecodeAux fuel isBin2 rest (acc ++ [p])

/-- `impl TryFrom<Bytes> for StrPayload`, at the character level (the
source first applies `from_utf8`). -/
def strDecode (cs : List Char) : StrRes :=
  strDecodeAux (cs.length + 1) false cs []

/-- Modelled from the spec: `impl TryFrom<StrPayload> for Bytes` is a
`TODO` placeholder in the source, so the encode direction follows §4.3:
each packet's representation is the ASCII type digit followed by the
payload text, or `b`, the type digit and the base64 payload when the
packet is flagged binary; each frame is emitted as
`<count>:<representation>` with `count` the character count of the
representation.  The is-binary flag accompanies each packet explicitly,
as §4.3 requires; a text payload that is not valid UTF-8 has no character
representation, hence the `Option`. -/
def strEncodeSpecFrame (p : EngPacket) (isBin : Bool) : Option (List Char) :=
  if isBin then
    some ('b' :: digitChar (engIdToU8 p.packet_id) :: base64Encode p.data)
  else
    (utf8Decode p.data).map
      (fun cs => digitChar (engIdToU8 p.packet_id) :: cs)

/-- Modelled from the spec: the §4.3 encode direction over a whole
sequence (see `strEncodeSpecFrame`). -/
def strEncodeSpec : List (EngPacket × Bool) → Option (List Char)
  | [] => some []
  | (p, isBin) :: rest =>
    match strEncodeSpecFrame p isBin, strEncodeSpec rest with
    | some repr1, some tail =>
      some (natToDigits repr1.length ++ ':' :: repr1 ++ tail)
    | _, _ => none

/-! ## JSON (model of `serde_json`)

`serde_json` is an external crate; the decoders only use it for
`from_str::<IgnoredAny>` (syntactic validation of the socket packet's data
segment) and `from_slice::<HandshakePacket>`.  Both are modelled through
one executable recursive-descent parser over characters. -/

/-- JSON values.  Numbers carry their integer part and whether the literal
was a plain integer (no fraction or exponent); a `u64` field
deserialization accepts only non-negative plain integers. -/
inductive Json
  | null
  | bool (b : Bool)
  | num (n : Int) (isInt : Bool)
  | str (s : List Char)
  | arr (xs : List Json)
  | obj (kvs : List (List Char × Json))

/-- JSON whitespace. -/
def isJsonWs (c : Char) : Bool :=
  c = ' ' ∨ c = '\t' ∨ c = '\n' ∨ c = '\r'

/-- Skip leading JSON whitespace. -/
def skipWs (s : List Char) : List Char :=
  s.dropWhile isJsonWs

/-- Parse the body of a JSON string literal after the opening quote,
returning the unescaped characters and the input after the closing
quote.  Escapes: the simple ones plus `\uXXXX` for non-surrogate scalar
values (surrogate-pair handling is simplified away; no claim depends on
it). -/
def jsonStringBody : List Char → Option (List Char × List Char)
  | [] => none
  | '"' :: rest => some ([], rest)
  | '\\' :: e :: rest =>
    let simple : Option Char :=
      if e = '"' then some '"'
      else if e = '\\' then some '\\'
      else if e = '/' then some '/'
      else if e = 'b' then some (Char.ofNat 8)
      else if e = 'f' then some (Char.ofNat 12)
      else if e = 'n' then some '\n'
      else if e = 'r' then some '\r'
      else if e = 't' then some '\t'
      else none
    match simple with
    | some c => (jsonStringBody rest).map (fun p => (c :: p.1, p.2))
    | none =>
      if e = 'u' then
        match rest with
        | h1 :: h2 :: h3 :: h4 :: rest4 =>
          let hv : Char → Option Nat := fun c =>
            if isAsciiDigit c then some (c.toNat - 48)
            else if 97 ≤ c.toNat ∧ c.toNat ≤ 102 then some (c.toNat - 87)
            else if 65 ≤ c.toNat ∧ c.toNat ≤ 70 then some (c.toNat - 55)
            else none
          match hv h1, hv h2, hv h3, hv h4 with
          | some v1, some v2, some v3, some v4 =>
            let v := v1 * 4096 + v2 * 256 + v3 * 16 + v4
            if 55296 ≤ v ∧ v ≤ 57343 then none
            else (jsonStringBody rest4).map (fun p => (Char.ofNat v :: p.1, p.2))
          | _, _, _, _ => none
        | _ => none
      else none
  | c :: rest =>
    if c.toNat < 32 then none
    else (jsonStringBody rest).map (fun p => (c :: p.1, p.2))

/-- Parse the tail of a JSON exponent (after `e`/`E`). -/
def jsonExpTail (s : List Char) : Option (List Char) :=
  let s1 := match s with
    | '+' :: t => t
    | '-' :: t => t
    | _ => s
  let ds := s1.takeWhile isAsciiDigit
  if ds = [] then none else some (s1.dropWhile isAsciiDigit)

/-- Parse a JSON number starting at the given input (sign already not
consumed); returns the value, whether it was a plain integer, and the
rest. -/
def jsonNumber (s : List Char) : Option (Int × Bool × List Char) :=
  let (neg, s1) : Bool × List Char :=
    match s with
    | '-' :: t => (true, t)
    | _ => (false, s)
  let intPart := s1.takeWhile isAsciiDigit
  let s2 := s1.dropWhile isAsciiDigit
  let okInt : Bool :=
    match intPart with
    | [] => false
    | [_] => true
    | c :: _ => c ≠ '0'
  if okInt then
    let n : Int := (digitsToNat intPart : Nat)
    let n := if neg then -n else n
    match s2 with
    | '.' :: t =>
      let frac := t.takeWhile isAsciiDigit
      let t2 := t.dropWhile isAsciiDigit
      if frac = [] then none
      else
        match t2 with
        | 'e' :: u => (jsonExpTail u).map (fun rest => (n, false, rest))
        | 'E' :: u => (jsonExpTail u).map (fun rest => (n, false, rest))
        | _ => some (n, false, t2)
    | 'e' :: u => (jsonExpTail u).map (fun rest => (n, false, rest))
    | 'E' :: u => (jsonExpTail u).map (fun rest => (n, false, rest))
    | _ => some (n, true, s2)
  else none

mutual

/-- Fuel-driven JSON value parser: parses one value from the input (no
leading whitespace), returning it and the rest. -/
def jsonVal : Nat → List Char → Option (Json × List Char)
  | 0, _ => none
  | _ + 1, [] => none
  | fuel + 1, c :: rest =>
    if c = 'n' then
      match rest with
      | 'u' :: 'l' :: 'l' :: r => some (.null, r)
      | _ => none
    else if c = 't' then
      match rest with
      | 'r' :: 'u' :: 'e' :: r => some (.bool true, r)
      | _ => none
    else if c = 'f' then
      match rest with
      | 'a' :: 'l' :: 's' :: 'e' :: r => some (.bool false, r)
      | _ => none
    else if c = '"' then
      (jsonStringBody rest).map (fun p => (.str p.1, p.2))
    else if c = '[' then
      match skipWs rest with
      | ']' :: r => some (.arr [], r)
      | r => jsonArrItems fuel r
    else if c = '\x7b' then
      match skipWs rest with
      | '\x7d' :: r => some (.obj [], r)
      | r => jsonObjItems fuel r
    else if c = '-' ∨ isAsciiDigit c then
      (jsonNumber (c :: rest)).map (fun p => (.num p.1 p.2.1, p.2.2))
    else none

/-- Array elements after `[` (first element expected at the input). -/
def jsonArrItems : Nat → List Char → Option (Json × List Char)
  | 0, _ => none
  | fuel + 1, s =>
    match jsonVal fuel s with
    | none => none
    | some (v, rest) =>
      match skipWs rest with
      | ',' :: r =>
        (jsonArrItems fuel (skipWs r)).map
          (fun p =>
            match p.1 with
            | .arr xs => (.arr (v :: xs), p.2)
            | other => (other, p.2))
      | ']' :: r => some (.arr [v], r)
      | _ => none

/-- Object members after the opening brace (first member expected at the
input). -/
def jsonObjItems : Nat → List Char → Option (Json × List Char)
  | 0, _ => none
  | fuel + 1, s =>
    match s with
    | '"' :: afterQuote =>
      match jsonStringBody afterQuote with
      | none => none
      | some (key, rest) =>
        match skipWs rest with
        | ':' :: afterColon =>
          match jsonVal fuel (skipWs afterColon) with
          | none => none
          | some (v, rest2) =>
            match skipWs rest2 with
            | ',' :: r =>
              (jsonObjItems fuel (skipWs r)).map
                (fun p =>
                  match p.1 with
                  | .obj kvs => (.obj ((key, v) :: kvs), p.2)
                  | other => (other, p.2))
            | '\x7d' :: r => some (.obj [(key, v)], r)
            | _ => none
        | _ => none
    | _ => none

end

/-- Parse a complete JSON document: one value with surrounding whitespace
and nothing else. -/
def jsonParseTop (s : List Char) : Option Json :=
  match jsonVal (s.length + 1) (skipWs s) with
  | some (v, rest) => if skipWs rest = [] then some v else none
  | none => none

/-- `serde_json::from_str::<IgnoredAny>`: syntactic validity of the
document. -/
def jsonValid (s : List Char) : Bool :=
  (jsonParseTop s).isSome

/-! ## Handshake parser (`TryFrom<Packet> for HandshakePacket`) -/

/-- `HandshakePacket`: session metadata from the handshake payload.  The
wire names are `sid`, `upgrades`, `pingInterval`, `pingTimeout` (the
latter two renamed by `#[serde(rename = ...)]` in the source). -/
structure HandshakePacket where
  sid : List Char
  upgrades : List (List Char)
  ping_interval : Nat
  ping_timeout : Nat
deriving DecidableEq, Repr

/-- First-match lookup of a key in a JSON object's members. -/
def jsonLookup (key : List Char) : List (List Char × Json) → Option Json
  | [] => none
  | (k, v) :: rest => if k = key then some v else jsonLookup key rest

/-- Deserialize a JSON string field. -/
def jsonAsStr : Json → Option (List Char)
  | .str s => some s
  | _ => none

/-- Deserialize a `u64` field: a non-negative plain-integer JSON number. -/
def jsonAsU64 : Json → Option Nat
  | .num n true => if 0 ≤ n then some n.toNat else none
  | _ => none

/-- Each array entry must be a JSON string. -/
def jsonStrEntries : List Json → Option (List (List Char))
  | [] => some []
  | x :: xs =>
    match x with
    | .str s => (jsonStrEntries xs).map (fun l => s :: l)
    | _ => none

/-- Deserialize a `Vec<String>` field. -/
def jsonAsStrList : Json → Option (List (List Char))
  | .arr xs => jsonStrEntries xs
  | _ => none

/-- Modelled from the spec: the derived `Deserialize` impl for
`HandshakePacket` (generated serde code, not under the provided sources)
requires a JSON object containing `sid` (string), `upgrades` (array of
strings), `pingInterval` and `pingTimeout` (unsigned integers); a missing
or mistyped field is an error and no field is defaulted. -/
def handshakeFromJson : Json → Option HandshakePacket
  | .obj kvs =>
    (jsonLookup (("sid").toList) kvs).bind (fun js =>
      (jsonAsStr js).bind (fun sid =>
        (jsonLookup (("upgrades").toList) kvs).bind (fun ju =>
          (jsonAsStrList ju).bind (fun ups =>
            (jsonLookup (("pingInterval").toList) kvs).bind (fun ji =>
              (jsonAsU64 ji).bind (fun pi =>
                (jsonLookup (("pingTimeout").toList) kvs).bind (fun jt =>
                  (jsonAsU64 jt).map (fun pt => ⟨sid, ups, pi, pt⟩))))))))
  | _ => none

/-- `impl TryFrom<Packet> for HandshakePacket`:
`serde_json::from_slice(packet.data)` — only the payload is consulted, the
packet's type field is never examined. -/
def handshakeTryFrom (packet : EngPacket) : Option HandshakePacket :=
  match utf8Decode packet.data with
  | none => none
  | some cs =>
    match jsonParseTop cs with
    | none => none
    | some j => handshakeFromJson j

/-- Declarative well-formedness of a handshake payload value (stated
independently of the deserializer, for the `C8` equivalence). -/
def HandshakeWellFormed (j : Json) : Prop :=
  ∃ kvs s xs ni nt,
    j = .obj kvs
    ∧ jsonLookup (("sid").toList) kvs = some (.str s)
    ∧ jsonLookup (("upgrades").toList) kvs = some (.arr xs)
    ∧ (∀ x ∈ xs, ∃ t, x = .str t)
    ∧ jsonLookup (("pingInterval").toList) kvs = some (.num ni true) ∧ 0 ≤ ni
    ∧ jsonLookup (("pingTimeout").toList) kvs = some (.num nt true) ∧ 0 ≤ nt

/-! ## Socket packet codec (`socketio/src/packet.rs`) -/

/-- The `socket.io` `PacketId` enumeration. -/
inductive SioPacketId
  | Connect
  | Disconnect
  | Event
  | Ack
  | ConnectError
  | BinaryEvent
  | BinaryAck
deriving DecidableEq, Repr

/-- The explicit discriminants `Connect = 0, …, BinaryAck = 6`. -/
def sioIdToU8 : SioPacketId → Nat
  | .Connect => 0
  | .Disconnect => 1
  | .Event => 2
  | .Ack => 3
  | .ConnectError => 4
  | .BinaryEvent => 5
  | .BinaryAck => 6

/-- Error enum of the `socketio` crate.  Modelled from the spec: `error.rs`
is not among the provided sources; variants follow the spec's §7
taxonomy.  `InvalidPacketId` carries the offending character. -/
inductive SioError
  | IncompletePacket
  | InvalidPacketId (c : Char)
  | InvalidPacket
  | InvalidJson
  | InvalidUtf8
deriving DecidableEq, Repr

/-- `impl TryFrom<char> for PacketId`. -/
def sioTryFromChar (c : Char) : Except SioError SioPacketId :=
  if c = '0' then .ok .Connect
  else if c = '1' then .ok .Disconnect
  else if c = '2' then .ok .Event
  else if c = '3' then .ok .Ack
  else if c = '4' then .ok .ConnectError
  else if c = '5' then .ok .BinaryEvent
  else if c = '6' then .ok .BinaryAck
  else .error (.InvalidPacketId c)

/-- A `socket.io` `Packet`.  `nsp` and `data` are `&str`/`String` text
(`List Char`); `id` is the `i32` ack id; `attachment_count` is the `u8`
count; attachment blobs are opaque byte strings. -/
structure SioPacket where
  packet_type : SioPacketId
  nsp : List Char
  data : Option (List Char)
  id : Option Int
  attachment_count : Nat
  attachments : Option (List (List Nat))
deriving DecidableEq, Repr

/-- `impl Default for Packet`. -/
def sioDefault : SioPacket :=
  { packet_type := .Event
    nsp := [ '/' ]
    data := none
    id := none
    attachment_count := 0
    attachments := none }

/-- Whether the type is `BinaryEvent` or `BinaryAck` (the
`if let PacketId::BinaryAck | PacketId::BinaryEvent` tests). -/
def sioIsBinaryType (t : SioPacketId) : Bool :=
  match t with
  | .BinaryEvent => true
  | .BinaryAck => true
  | _ => false

/-- The literal `{"_placeholder":true,"num":0}` removed by the decoder. -/
def placeholderZero : List Char :=
  ("\x7b\"_placeholder\":true,\"num\":0\x7d").toList

/-- Rust's `str::replace(pat, "")` for a non-empty pattern: removes every
(leftmost, non-overlapping) occurrence.  The `pat ≠ []` conjunct only
serves termination; the decoder always passes the non-empty
`placeholderZero`. -/
def removeAll (pat : List Char) : List Char → List Char
  | [] => []
  | c :: rest =>
    if h : pat ≠ [] ∧ pat.isPrefixOf (c :: rest) then
      removeAll pat ((c :: rest).drop pat.length)
    else c :: removeAll pat rest
termination_by s => s.length
decreasing_by
  all_goals simp only [List.length_drop, List.length_cons]
  · have hp : 0 < pat.length := List.length_pos.mpr h.1
    omega
  · omega

/-- `impl From<&Packet> for Bytes`, producing the text frame (a Rust
`String`; the final `Bytes::from(buffer)` is its UTF-8 bytes).  The
`attachments` branch computes `packet.attachment_count - 1` on the `u8`
count; when the count is zero that subtraction underflows (a debug-mode
panic), modelled as `none`. -/
def sioEncode (packet : SioPacket) : Option (List Char) :=
  let buffer := [digitChar (sioIdToU8 packet.packet_type)]
  let buffer := buffer ++
    (if sioIsBinaryType packet.packet_type then
      natToDigits packet.attachment_count ++ [ '-' ]
    else [])
  let buffer := buffer ++
    (if packet.nsp ≠ [ '/' ] then packet.nsp ++ [ ',' ] else [])
  let buffer := buffer ++
    (match packet.id with
     | some id => if id < 0 then '-' :: natToDigits (-id).toNat
                  else natToDigits id.toNat
     | none => [])
  match packet.attachments with
  | some _ =>
    if packet.attachment_count = 0 then none
    else
      let num := packet.attachment_count - 1
      some (buffer ++
        (match packet.data with
         | some event_type =>
           '[' :: event_type
             ++ (",\x7b\"_placeholder\":true,\"num\":").toList
             ++ natToDigits num ++ ("\x7d]").toList
         | none =>
           ("[\x7b\"_placeholder\":true,\"num\":").toList
             ++ natToDigits num ++ ("\x7d]").toList))
  | none =>
    match packet.data with
    | some data => some (buffer ++ data)
    | none => some buffer

/-- The attachment-count decode step: for `BinaryEvent`/`BinaryAck`,
`split_once('-')` (failure is `IncompletePacket`) and `parse::<u8>` of the
prefix (failure is `InvalidPacket`). -/
def sioAttachStep (pk : SioPacket) (payload : List Char) :
    Except SioError (SioPacket × List Char) :=
  if sioIsBinaryType pk.packet_type then
    match splitOnce '-' payload with
    | none => .error .IncompletePacket
    | some (pre, rest) =>
      match parseU8 pre with
      | none => .error .InvalidPacket
      | some n => .ok ({ pk with attachment_count := n }, rest)
  else .ok (pk, payload)

/-- The namespace decode step: when the text starts with `/`,
`split_once(',')` (failure is `IncompletePacket`); the prefix (including
the leading `/`) replaces the default namespace. -/
def sioNspStep (pk : SioPacket) (payload : List Char) :
    Except SioError (SioPacket × List Char) :=
  if payload.head? = some '/' then
    match splitOnce ',' payload with
    | none => .error .IncompletePacket
    | some (pre, rest) => .ok ({ pk with nsp := pre }, rest)
  else .ok (pk, payload)

/-- Result of the ack-id decode step: the source's
`let ... else return Ok(packet)` either returns the packet immediately
(no non-digit character exists), or fails, or continues with the rest of
the text. -/
inductive IdStepRes
  | done (pk : SioPacket)
  | cont (pk : SioPacket) (rest : List Char)
  | fail (e : SioError)
deriving DecidableEq, Repr

/-- Index of the first non-digit character:
`payload.char_indices().find(|(_, c)| !c.is_ascii_digit())`.  The source
uses byte offsets, but every character before the first non-digit is an
ASCII digit (one byte), so the byte offset equals the character index. -/
def findNonDigitIdx : List Char → Option Nat
  | [] => none
  | c :: rest =>
    if isAsciiDigit c then (findNonDigitIdx rest).map (· + 1)
    else some 0

/-- The ack-id decode step: find the first non-digit character; if none
exists return the packet as-is; when the non-digit index is positive,
parse the digit prefix as the `i32` ack id (failure is `InvalidPacket`). -/
def sioIdStep (pk : SioPacket) (payload : List Char) : IdStepRes :=
  match findNonDigitIdx payload with
  | none => .done pk
  | some i =>
    if 0 < i then
      match parseI32 (payload.take i) with
      | none => .fail .InvalidPacket
      | some n => .cont { pk with id := some n } (payload.drop i)
    else .cont pk payload

/-- The data decode step, after JSON validation: for binary types, strip
one bracket layer when the text is bracket-wrapped, remove every literal
`{"_placeholder":true,"num":0}`, drop a trailing comma, and keep the rest
as `data` when non-empty; for all other types the full text becomes
`data`. -/
def sioDataStep (pk : SioPacket) (payload : List Char) : SioPacket :=
  if sioIsBinaryType pk.packet_type then
    let payload :=
      if payload.head? = some '[' ∧ payload.getLast? = some ']' then
        (payload.drop 1).dropLast
      else payload
    let s := removeAll placeholderZero payload
    let s := if s.getLast? = some ',' then s.dropLast else s
    if s = [] then pk else { pk with data := some s }
  else { pk with data := some payload }

/-- `impl TryFrom<&Bytes> for Packet`, at the character level (the source
first applies `from_utf8`, whose failure is `InvalidUtf8`; the
`Bytes`/`&str` boundary is the UTF-8 bijection). -/
def sioDecode (payload : List Char) : Except SioError SioPacket :=
  match payload with
  | [] => .error .IncompletePacket
  | c :: rest =>
    match sioTryFromChar c with
    | .error e => .error e
    | .ok pid =>
      match sioAttachStep { sioDefault with packet_type := pid } rest with
      | .error e => .error e
      | .ok (pk1, pl1) =>
        match sioNspStep pk1 pl1 with
        | .error e => .error e
        | .ok (pk2, pl2) =>
          match sioIdStep pk2 pl2 with
          | .done pk => .ok pk
          | .fail e => .error e
          | .cont pk3 pl3 =>
            if jsonValid pl3 then .ok (sioDataStep pk3 pl3)
            else .error .InvalidJson

/-- Decidable equality of `Except` results (for `decide`-based checks). -/
instance {ε α : Type} [DecidableEq ε] [DecidableEq α] :
    DecidableEq (Except ε α) := fun x y =>
  match x, y with
  | .ok a, .ok b =>
    if h : a = b then isTrue (congrArg Except.ok h)
    else isFalse (fun he => h (Except.ok.inj he))
  | .error a, .error b =>
    if h : a = b then isTrue (congrArg Except.error h)
    else isFalse (fun he => h (Except.error.inj he))
  | .ok _, .error _ => isFalse (fun he => Except.noConfusion he)
  | .error _, .ok _ => isFalse (fun he => Except.noConfusion he)

instance : Nonempty Json := ⟨Json.null⟩

/-! ## Helper lemmas -/

theorem digitChar_toNat {k : Nat} (h : k < 10) : (digitChar k).toNat = 48 + k := by
  interval_cases k <;> decide

theorem digitChar_isDigit {k : Nat} (h : k < 10) : isAsciiDigit (digitChar k) = true := by
  interval_cases k <;> decide

theorem natToDigitsAux_ne_nil {fuel n : Nat} (h : n < fuel) :
    natToDigitsAux fuel n ≠ [] := by
  cases fuel with
  | zero => omega
  | succ f =>
    rw [natToDigitsAux]
    split <;> simp

theorem natToDigits_ne_nil (n : Nat) : natToDigits n ≠ [] :=
  natToDigitsAux_ne_nil (by omega)

theorem natToDigitsAux_all_digits :
    ∀ fuel n, n < fuel → ∀ c ∈ natToDigitsAux fuel n, isAsciiDigit c = true := by
  intro fuel
  induction fuel with
  | zero => omega
  | succ f ih =>
    intro n hn
    rw [natToDigitsAux]
    split
    · intro c hc
      simp only [List.mem_singleton] at hc
      subst hc
      exact digitChar_isDigit (by omega)
    · intro c hc
      rw [List.mem_append] at hc
      rcases hc with hc | hc
      · exact ih (n / 10) (by omega) c hc
      · simp only [List.mem_singleton] at hc
        subst hc
        exact digitChar_isDigit (Nat.mod_lt _ (by omega))

theorem natToDigits_all_digits (n : Nat) :
    ∀ c ∈ natToDigits n, isAsciiDigit c = true :=
  natToDigitsAux_all_digits (n + 1) n (by omega)

theorem digitsToNat_append_digit (l : List Char) (c : Char) :
    digitsToNat (l ++ [c]) = 10 * digitsToNat l + (c.toNat - 48) := by
  simp [digitsToNat, digitsToNatAux, List.foldl_append]

theorem digitsToNat_natToDigitsAux :
    ∀ fuel n, n < fuel → digitsToNat (natToDigitsAux fuel n) = n := by
  intro fuel
  induction fuel with
  | zero => omega
  | succ f ih =>
    intro n hn
    rw [natToDigitsAux]
    split
    · rename_i h
      simp [digitsToNat, digitsToNatAux, digitChar_toNat h]
    · rename_i h
      rw [digitsToNat_append_digit, ih (n / 10) (by omega),
        digitChar_toNat (Nat.mod_lt _ (by omega))]
      omega

theorem digitsToNat_natToDigits (n : Nat) : digitsToNat (natToDigits n) = n :=
  digitsToNat_natToDigitsAux (n + 1) n (by omega)

theorem parseI32_digits {l : List Char} (h1 : l ≠ [])
    (h2 : ∀ c ∈ l, isAsciiDigit c = true) (h3 : digitsToNat l ≤ 2147483647) :
    parseI32 l = some ((digitsToNat l : Nat) : Int) := by
  cases l with
  | nil => exact absurd rfl h1
  | cons c t =>
    have hc : isAsciiDigit c = true := h2 c (by simp)
    have hc1 : ¬ (c = '-') := by
      intro hceq
      subst hceq
      simp [isAsciiDigit] at hc
    have hc2 : ¬ (c = '+') := by
      intro hceq
      subst hceq
      simp [isAsciiDigit] at hc
    rw [parseI32]
    rw [if_neg hc1, if_neg hc2]
    rw [parseNonNegDigits, if_pos ⟨by simp, h2⟩]
    simp [h3]

theorem splitOnce_append {x : Char} {l : List Char} (r : List Char)
    (h : x ∉ l) : splitOnce x (l ++ x :: r) = some (l, r) := by
  induction l with
  | nil => simp [splitOnce]
  | cons c t ih =>
    have hcx : ¬ (c = x) := by
      intro he
      exact h (by simp [he])
    simp only [List.cons_append, splitOnce, if_neg hcx]
    rw [List.append_eq, ih (fun hm => h (by simp [hm]))]
    rfl

theorem findNonDigitIdx_all_digits {l : List Char}
    (h : ∀ c ∈ l, isAsciiDigit c = true) : findNonDigitIdx l = none := by
  induction l with
  | nil => rfl
  | cons c t ih =>
    rw [findNonDigitIdx, if_pos (h c (by simp)), ih (fun x hx => h x (by simp [hx]))]
    rfl

theorem findNonDigitIdx_append {l : List Char} {c0 : Char} (r : List Char)
    (hl : ∀ c ∈ l, isAsciiDigit c = true) (hc : isAsciiDigit c0 = false) :
    findNonDigitIdx (l ++ c0 :: r) = some l.length := by
  induction l with
  | nil => simp [findNonDigitIdx, hc]
  | cons c t ih =>
    rw [List.cons_append, findNonDigitIdx, if_pos (hl c (by simp)),
      ih (fun x hx => hl x (by simp [hx]))]
    simp

theorem take_append_length {α : Type} (l r : List α) : (l ++ r).take l.length = l := by
  induction l with
  | nil => simp
  | cons c t ih => simp [ih]

theorem drop_append_length {α : Type} (l r : List α) : (l ++ r).drop l.length = r := by
  induction l with
  | nil => simp
  | cons c t ih => simp [ih]

theorem sioTryFromChar_digit (t : SioPacketId) :
    sioTryFromChar (digitChar (sioIdToU8 t)) = .ok t := by
  cases t <;> rfl

theorem sioAttachStep_skip {pk : SioPacket} (payload : List Char)
    (h : sioIsBinaryType pk.packet_type = false) :
    sioAttachStep pk payload = .ok (pk, payload) := by
  simp [sioAttachStep, h]

theorem sioNspStep_default {pk : SioPacket} {payload : List Char}
    (h : payload.head? ≠ some '/') :
    sioNspStep pk payload = .ok (pk, payload) := by
  simp [sioNspStep, h]

theorem sioNspStep_custom {pk : SioPacket} {nsp : List Char} (rest : List Char)
    (hhead : nsp.head? = some '/') (hnc : ',' ∉ nsp) :
    sioNspStep pk (nsp ++ ',' :: rest) = .ok ({ pk with nsp := nsp }, rest) := by
  cases nsp with
  | nil => simp at hhead
  | cons c t =>
    simp only [List.head?_cons, Option.some.injEq] at hhead
    subst hhead
    rw [sioNspStep]
    simp only [List.cons_append, List.head?_cons]
    rw [if_pos trivial, ← List.cons_append, splitOnce_append rest hnc]

theorem sioIdStep_done {pk : SioPacket} {payload : List Char}
    (h : ∀ c ∈ payload, isAsciiDigit c = true) :
    sioIdStep pk payload = .done pk := by
  simp [sioIdStep, findNonDigitIdx_all_digits h]

theorem sioIdStep_nodigit {pk : SioPacket} {c : Char} (r : List Char)
    (h : isAsciiDigit c = false) :
    sioIdStep pk (c :: r) = .cont pk (c :: r) := by
  have := findNonDigitIdx_append (l := []) r (by simp) h
  simp only [List.nil_append, List.length_nil] at this
  simp [sioIdStep, this]

theorem sioIdStep_digits {pk : SioPacket} {l : List Char} {c0 : Char} {n : Int}
    (r : List Char) (h1 : l ≠ []) (h2 : ∀ c ∈ l, isAsciiDigit c = true)
    (h3 : isAsciiDigit c0 = false) (h4 : parseI32 l = some n) :
    sioIdStep pk (l ++ c0 :: r) = .cont { pk with id := some n } (c0 :: r) := by
  rw [sioIdStep, findNonDigitIdx_append r h2 h3]
  have hlen : 0 < l.length := List.length_pos.mpr h1
  simp only [if_pos hlen]
  rw [take_append_length l (c0 :: r), drop_append_length l (c0 :: r), h4]

theorem head_digits_ne_slash {l : List Char} (r : List Char) (hne : l ≠ [])
    (hdig : ∀ c ∈ l, isAsciiDigit c = true) : (l ++ r).head? ≠ some '/' := by
  cases l with
  | nil => exact absurd rfl hne
  | cons c t =>
    have hc : isAsciiDigit c = true := hdig c (by simp)
    simp only [List.cons_append, List.head?_cons, ne_eq, Option.some.injEq]
    intro he
    subst he
    simp [isAsciiDigit] at hc

theorem parseI32_natToDigits {n : Int} (h0 : 0 ≤ n) (h1 : n ≤ 2147483647) :
    parseI32 (natToDigits n.toNat) = some n := by
  rw [parseI32_digits (natToDigits_ne_nil _) (natToDigits_all_digits _)
    (by rw [digitsToNat_natToDigits]; omega)]
  rw [digitsToNat_natToDigits]
  congr 1
  omega

theorem sioEncode_no_attachments (pt : SioPacketId) (nsp : List Char)
    (dataOpt : Option (List Char)) (idOpt : Option Int) (cnt : Nat)
    (hbin : sioIsBinaryType pt = false) :
    sioEncode ⟨pt, nsp, dataOpt, idOpt, cnt, none⟩ =
      some (digitChar (sioIdToU8 pt) ::
        ((if nsp = [ '/' ] then [] else nsp ++ [ ',' ]) ++
          (match idOpt with
           | some n => if n < 0 then '-' :: natToDigits (-n).toNat
                       else natToDigits n.toNat
           | none => []) ++
          (match dataOpt with
           | some d => d
           | none => []))) := by
  rw [sioEncode]
  simp only [hbin, Bool.false_eq_true, if_false]
  by_cases hd : nsp = [ '/' ]
  · simp only [hd, ne_eq, not_true_eq_false, if_false, if_pos rfl]
    cases idOpt <;> cases dataOpt <;> simp
  · simp only [ne_eq, hd, not_false_eq_true, if_true, if_neg hd]
    cases idOpt <;> cases dataOpt <;> simp

/-- Claim C1 (amended): for socket packets without attachments whose type
is not a binary type, whose namespace is the default `/` or starts with
`/` and contains no comma, whose ack id (when present) is a non-negative
`i32` accompanied by a data segment, and whose data segment (when
present) is valid JSON text starting with neither an ASCII digit nor
`/`, decoding the encoding returns the original packet. -/
theorem sio_decode_encode_no_attachments (p : SioPacket)
    (hatt : p.attachments = none) (hcnt : p.attachment_count = 0)
    (hbin : sioIsBinaryType p.packet_type = false)
    (hnsp : p.nsp = [ '/' ] ∨ (p.nsp.head? = some '/' ∧ ',' ∉ p.nsp))
    (hid : ∀ n, p.id = some n → 0 ≤ n ∧ n ≤ 2147483647 ∧ p.data ≠ none)
    (hdata : ∀ d, p.data = some d → jsonValid d = true ∧
      ∃ c cs, d = c :: cs ∧ isAsciiDigit c = false ∧ c ≠ '/') :
    ∃ s, sioEncode p = some s ∧ sioDecode s = .ok p := by
  obtain ⟨pt, nsp, dataOpt, idOpt, cnt, att⟩ := p
  simp only at hatt hcnt hbin hnsp hid hdata
  subst hatt hcnt
  cases dataOpt with
  | none =>
    have hidn : idOpt = none := by
      cases idOpt with
      | none => rfl
      | some n => exact absurd (hid n rfl).2.2 (by simp)
    subst hidn
    refine ⟨_, sioEncode_no_attachments pt nsp none none 0 hbin, ?_⟩
    by_cases hd : nsp = [ '/' ]
    · subst hd
      simp only [if_pos rfl, List.nil_append, List.append_nil]
      simp only [sioDecode, sioTryFromChar_digit]
      rw [sioAttachStep_skip _ hbin]
      dsimp only
      rw [sioNspStep_default (by simp [sioDefault])]
      dsimp only
      rw [sioIdStep_done (by simp)]
      simp [sioDefault]
    · obtain ⟨hhead, hnc⟩ := hnsp.resolve_left hd
      simp only [if_neg hd, List.append_nil, List.append_assoc, List.singleton_append]
      simp only [sioDecode, sioTryFromChar_digit]
      rw [sioAttachStep_skip _ hbin]
      dsimp only
      rw [sioNspStep_custom [] hhead hnc]
      dsimp only
      rw [sioIdStep_done (by simp)]
      simp [sioDefault]
  | some d =>
    obtain ⟨hjson, c, cs, hdcc, hcdig, hcslash⟩ := hdata d rfl
    subst hdcc
    cases idOpt with
    | none =>
      refine ⟨_, sioEncode_no_attachments pt nsp (some (c :: cs)) none 0 hbin, ?_⟩
      by_cases hd : nsp = [ '/' ]
      · subst hd
        simp only [eq_self_iff_true, if_true, List.nil_append]
        simp only [sioDecode, sioTryFromChar_digit]
        rw [sioAttachStep_skip _ hbin]
        dsimp only
        rw [sioNspStep_default (by simp [sioDefault, hcslash])]
        dsimp only
        rw [sioIdStep_nodigit cs hcdig]
        dsimp only
        rw [if_pos hjson, sioDataStep]
        simp [hbin, sioDefault]
      · obtain ⟨hhead, hnc⟩ := hnsp.resolve_left hd
        simp only [if_neg hd, List.nil_append, List.append_assoc, List.singleton_append]
        simp only [sioDecode, sioTryFromChar_digit]
        rw [sioAttachStep_skip _ hbin]
        dsimp only
        rw [sioNspStep_custom (c :: cs) hhead hnc]
        dsimp only
        rw [sioIdStep_nodigit cs hcdig]
        dsimp only
        rw [if_pos hjson, sioDataStep]
        simp [hbin, sioDefault]
    | some n =>
      obtain ⟨hn0, hnmax, _⟩ := hid n rfl
      have hparse : parseI32 (natToDigits n.toNat) = some n :=
        parseI32_natToDigits hn0 hnmax
      have hneg : ¬ (n < 0) := by omega
      refine ⟨_, sioEncode_no_attachments pt nsp (some (c :: cs)) (some n) 0 hbin, ?_⟩
      by_cases hd : nsp = [ '/' ]
      · subst hd
        simp only [eq_self_iff_true, if_true, List.nil_append, if_neg hneg]
        simp only [sioDecode, sioTryFromChar_digit]
        rw [sioAttachStep_skip _ hbin]
        dsimp only
        rw [sioNspStep_default
          (head_digits_ne_slash _ (natToDigits_ne_nil _) (natToDigits_all_digits _))]
        dsimp only
        rw [sioIdStep_digits cs (natToDigits_ne_nil _)
          (natToDigits_all_digits _) hcdig hparse]
        dsimp only
        rw [if_pos hjson, sioDataStep]
        simp [hbin, sioDefault]
      · obtain ⟨hhead, hnc⟩ := hnsp.resolve_left hd
        simp only [if_neg hd, if_neg hneg, List.append_assoc, List.singleton_append,
          List.cons_append, List.nil_append]
        simp only [sioDecode, sioTryFromChar_digit]
        rw [sioAttachStep_skip _ hbin]
        dsimp only
        rw [sioNspStep_custom (natToDigits n.toNat ++ c :: cs) hhead hnc]
        dsimp only
        rw [sioIdStep_digits cs (natToDigits_ne_nil _)
          (natToDigits_all_digits _) hcdig hparse]
        dsimp only
        rw [if_pos hjson, sioDataStep]
        simp [hbin, sioDefault]

/-- Claim C1 counterexample: the Event packet with default namespace, no
ack id and data `123` (valid JSON, and no attachments) encodes to `2123`,
which decodes to the default packet — the digits-only remainder is
discarded by the decoder's early return, so `decode (encode p) ≠ p`. -/
theorem sio_roundtrip_counterexample :
    sioEncode ⟨.Event, [ '/' ], some (("123").toList), none, 0, none⟩ =
        some (("2123").toList)
      ∧ sioDecode (("2123").toList) = .ok sioDefault
      ∧ sioDefault ≠ ⟨.Event, [ '/' ], some (("123").toList), none, 0, none⟩ := by
  refine ⟨rfl, rfl, ?_⟩
  simp [sioDefault]

/-- Claim C1 witness: the amended round-trip theorem applied to a concrete
Event packet with namespace `/admin`, ack id 456 and data
`["hello",1]`. -/
theorem sio_decode_encode_no_attachments_witness :
    ∃ s,
      sioEncode ⟨.Event, ("/admin").toList, some (("[\"hello\",1]").toList),
          some 456, 0, none⟩ = some s
      ∧ sioDecode s =
        .ok ⟨.Event, ("/admin").toList, some (("[\"hello\",1]").toList),
          some 456, 0, none⟩ :=
  sio_decode_encode_no_attachments _ rfl rfl rfl
    (Or.inr ⟨rfl, by decide⟩)
    (fun n h => by
      cases h
      exact ⟨by decide, by decide, by simp⟩)
    (fun d h => by
      cases h
      exact ⟨rfl, '[', (("\"hello\",1]").toList), rfl, by decide, by decide⟩)

/-- Claim C5 (amended): in the ack-id decode step, a non-empty maximal
leading run of ASCII digits is consumed and parsed as the ack id only
when a non-digit character follows it; when there is no leading digit the
text is untouched; but when the remaining text consists entirely of
digits (or is empty), decoding returns the packet immediately with the
ack id (and data) left absent. -/
theorem sio_id_step_spec (pk : SioPacket) (ds r : List Char) (c : Char)
    (hds : ∀ x ∈ ds, isAsciiDigit x = true) (hc : isAsciiDigit c = false) :
    (sioIdStep pk (ds ++ c :: r) =
      if ds = [] then .cont pk (c :: r)
      else
        match parseI32 ds with
        | some n => .cont { pk with id := some n } (c :: r)
        | none => .fail .InvalidPacket)
    ∧ sioIdStep pk ds = .done pk := by
  constructor
  · by_cases hds0 : ds = []
    · subst hds0
      rw [if_pos rfl, List.nil_append]
      exact sioIdStep_nodigit r hc
    · rw [if_neg hds0]
      cases hp : parseI32 ds with
      | some n => rw [sioIdStep_digits r hds0 hds hc hp]
      | none =>
        rw [sioIdStep, findNonDigitIdx_append r hds hc]
        dsimp only
        rw [if_pos (List.length_pos.mpr hds0), take_append_length ds (c :: r), hp]
  · exact sioIdStep_done hds

/-- Claim C5 counterexample: decoding `2456` — an Event packet whose
entire remaining text `456` consists of digits — returns the default
packet with `id = none`: the digit run does not become the ack id. -/
theorem sio_id_counterexample :
    sioDecode (("2456").toList) = .ok sioDefault ∧ sioDefault.id = none :=
  ⟨rfl, rfl⟩

/-- Claim C5 witness: the ack-id step theorem applied at the digit run
`45` followed by `,`. -/
theorem sio_id_step_spec_witness :
    (sioIdStep sioDefault ((("45").toList) ++ ',' :: []) =
      if (("45").toList) = [] then .cont sioDefault (',' :: [])
      else
        match parseI32 (("45").toList) with
        | some n => .cont { sioDefault with id := some n } (',' :: [])
        | none => .fail .InvalidPacket)
    ∧ sioIdStep sioDefault (("45").toList) = .done sioDefault :=
  sio_id_step_spec sioDefault (("45").toList) [] ',' (by decide) (by decide)

/-- Claim C7: encoding an engine packet emits exactly the ASCII type-digit
byte (48 + the canonical integer) followed by the payload verbatim, the
output length is 1 + payload length, and decoding that encoding returns
the packet unchanged. -/
theorem eng_encode_decode (p : EngPacket) :
    engEncode p = (48 + engIdToU8 p.packet_id) :: p.data
    ∧ (engEncode p).length = 1 + p.data.length
    ∧ engFrameDecode (engEncode p) = .ok p := by
  obtain ⟨pid, data⟩ := p
  refine ⟨by simp [engEncode, engToStringByte, Nat.add_comm],
    by simp only [engEncode, List.length_cons]; omega, ?_⟩
  cases pid <;> rfl

set_option maxRecDepth 4000 in
/-- Claim C6: engine frame decoding of the empty input is
`IncompletePacket`; the raw values 0–6 and the ASCII digits 48–54 both
select the same seven packet types; every other byte `b` yields
`InvalidPacketId(b)`, in particular byte 42. -/
theorem eng_packet_id_decode :
    engFrameDecode [] = .error .IncompletePacket
    ∧ (∀ n, n < 7 → engPacketIdTryFrom n = .ok (engIdOfNat n)
        ∧ engPacketIdTryFrom (n + 48) = .ok (engIdOfNat n))
    ∧ (∀ b, b < 256 → 6 < b → ¬ (48 ≤ b ∧ b ≤ 54) →
        engPacketIdTryFrom b = .error (.InvalidPacketId b))
    ∧ engPacketIdTryFrom 42 = .error (.InvalidPacketId 42) := by
  refine ⟨rfl, by decide, by decide, rfl⟩

/-- Claim C6 witness: the discriminator theorem applied at the raw value
4, the ASCII digit 52 and the invalid byte 200. -/
theorem eng_packet_id_decode_witness :
    (engPacketIdTryFrom 4 = .ok (engIdOfNat 4)
      ∧ engPacketIdTryFrom 52 = .ok (engIdOfNat 4))
    ∧ engPacketIdTryFrom 200 = .error (.InvalidPacketId 200) :=
  ⟨eng_packet_id_decode.2.1 4 (by decide),
   eng_packet_id_decode.2.2.1 200 (by decide) (by decide) (by decide)⟩

/-- Claim C2 (code evaluation at the failing input): the §4.3 encoding of
the single text Message packet with nine payload characters is
`10:4XXXXXXXXX`, but the source decoder rejects that well-formed frame
with `IncompletePacket` (its length accumulation turns `10` into 11, so
it tries to read ten payload characters where nine remain) — both
round-trip directions fail at this input. -/
theorem str_payload_roundtrip_failing :
    strEncodeSpec [(⟨.Message, utf8Encode (("XXXXXXXXX").toList)⟩, false)] =
        some (("10:4XXXXXXXXX").toList)
    ∧ strDecode (("10:4XXXXXXXXX").toList) = .err .IncompletePacket :=
  ⟨rfl, rfl⟩

/-- Claim C3 (code evaluation at the failing input): the length loop
accumulates the digit run `10` to 11 (via `cnt += cnt * 10 + d`), not to
the standard decimal value 10, so the frame `10:4AAAAAAAAA` — whose
prefix declares exactly the ten characters that follow — is rejected
with `IncompletePacket` instead of yielding a Message packet with
payload `AAAAAAAAA`. -/
theorem str_len_accumulation_failing :
    lenLoop 0 (("10:").toList) = .ok (11, [])
    ∧ strDecode (("10:4AAAAAAAAA").toList) = .err .IncompletePacket :=
  ⟨rfl, rfl⟩

/-- Claim C4 (code evaluation at the failing input): in
`6:b4AQ==5:4AQ==` the second frame is digit-marked (a text frame whose
payload characters are `AQ==`, UTF-8 bytes 65,81,61,61), but because the
`is_bin` flag set by the first, `b`-marked frame is never reset, the
decoder base64-decodes the second frame's payload as well, yielding the
byte 1. -/
theorem str_sticky_is_bin_failing :
    strDecode (("6:b4AQ==5:4AQ==").toList) =
      .ok [⟨.Message, [1]⟩, ⟨.Message, [1]⟩]
    ∧ utf8Encode (("AQ==").toList) ≠ [1] :=
  ⟨rfl, by decide⟩

/-- Claim C9 (code evaluation at the failing input): decoding the input
`1:b` reaches the unchecked `cnt -= 2` with `cnt = 1`, an arithmetic
underflow (a debug-mode panic), rather than returning a typed error. -/
theorem str_decode_underflow_panic :
    strDecode (("1:b").toList) = .panic :=
  rfl

/-- Claim C10: socket encoding computes the placeholder index as
`attachment_count - 1` on the unsigned count whenever attachments are
present; with `attachment_count ≥ 1` the subtraction cannot underflow
and encoding always produces a frame, while attachments with
`attachment_count = 0` reach the underflowing subtraction (modelled as
`none`). -/
theorem sio_encode_attachment_underflow :
    (∀ p : SioPacket, p.attachments.isSome = true → 1 ≤ p.attachment_count →
      (sioEncode p).isSome = true)
    ∧ (∀ p : SioPacket, p.attachments.isSome = true → p.attachment_count = 0 →
      sioEncode p = none) := by
  constructor
  · intro p h1 h2
    have h0 : ¬ p.attachment_count = 0 := by omega
    rcases ha : p.attachments with _ | l
    · rw [ha] at h1
      simp at h1
    · cases hd : p.data <;> simp [sioEncode, ha, h0, hd]
  · intro p h1 h2
    rcases ha : p.attachments with _ | l
    · rw [ha] at h1
      simp at h1
    · simp [sioEncode, ha, h2]

/-- Claim C10 witness: the underflow theorem applied to the test suite's
BinaryEvent packet with one attachment, and to the same packet with the
count set to zero. -/
theorem sio_encode_attachment_underflow_witness :
    (sioEncode ⟨.BinaryEvent, [ '/' ], some (("\"hello\"").toList), none, 1,
      some [[1, 2, 3]]⟩).isSome = true
    ∧ sioEncode ⟨.BinaryEvent, [ '/' ], some (("\"hello\"").toList), none, 0,
      some [[1, 2, 3]]⟩ = none :=
  ⟨sio_encode_attachment_underflow.1 _ rfl (by decide),
   sio_encode_attachment_underflow.2 _ rfl rfl⟩

theorem jsonAsStr_eq_some {j : Json} {s : List Char} :
    jsonAsStr j = some s ↔ j = .str s := by
  cases j <;> simp [jsonAsStr]

theorem jsonAsU64_eq_some {j : Json} {m : Nat} :
    jsonAsU64 j = some m ↔ j = .num (m : Int) true := by
  cases j with
  | num n b =>
    cases b with
    | false => simp [jsonAsU64]
    | true =>
      simp only [jsonAsU64, Json.num.injEq, and_true]
      constructor
      · intro h
        split at h
        · rename_i hn
          obtain rfl := Option.some.inj h
          omega
        · exact absurd h (by simp)
      · intro h
        rw [if_pos (by omega)]
        congr 1
        omega
  | _ => simp [jsonAsU64]

theorem jsonStrEntries_isSome {xs : List Json} :
    (jsonStrEntries xs).isSome = true ↔ ∀ x ∈ xs, ∃ t, x = .str t := by
  induction xs with
  | nil => simp [jsonStrEntries]
  | cons x rest ih =>
    by_cases hx : ∃ s, x = Json.str s
    · obtain ⟨s, rfl⟩ := hx
      constructor
      · intro h y hy
        rcases List.mem_cons.mp hy with hy | hy
        · exact ⟨s, hy⟩
        · refine ih.mp ?_ y hy
          simp only [jsonStrEntries] at h
          cases hr : jsonStrEntries rest with
          | none =>
            rw [hr] at h
            simp at h
          | some l => simp [hr]
      · intro h
        simp only [jsonStrEntries]
        cases hr : jsonStrEntries rest with
        | none =>
          exfalso
          have hsome : (jsonStrEntries rest).isSome = true :=
            ih.mpr (fun y hy => h y (List.mem_cons_of_mem _ hy))
          rw [hr] at hsome
          simp at hsome
        | some l => simp
    · have hnone : jsonStrEntries (x :: rest) = none := by
        cases x <;> first | rfl | exact absurd ⟨_, rfl⟩ hx
      rw [hnone]
      simp only [Option.isSome_none, Bool.false_eq_true, false_iff]
      intro h
      exact hx (h x (by simp))

theorem jsonAsStrList_eq_some {j : Json} {l : List (List Char)} :
    jsonAsStrList j = some l ↔ ∃ xs, j = .arr xs ∧ jsonStrEntries xs = some l := by
  cases j <;> simp [jsonAsStrList]

theorem handshakeFromJson_eq_some {j : Json} {h : HandshakePacket} :
    handshakeFromJson j = some h ↔
      ∃ kvs xs, j = .obj kvs
        ∧ jsonLookup (("sid").toList) kvs = some (.str h.sid)
        ∧ jsonLookup (("upgrades").toList) kvs = some (.arr xs)
        ∧ jsonStrEntries xs = some h.upgrades
        ∧ jsonLookup (("pingInterval").toList) kvs =
            some (.num (h.ping_interval : Int) true)
        ∧ jsonLookup (("pingTimeout").toList) kvs =
            some (.num (h.ping_timeout : Int) true) := by
  obtain ⟨hsid, hups, hpi, hpt⟩ := h
  cases j with
  | obj kvs =>
    simp only [handshakeFromJson, Option.bind_eq_some, Option.map_eq_some',
      jsonAsStr_eq_some, jsonAsU64_eq_some, jsonAsStrList_eq_some]
    constructor
    · rintro ⟨js, hjs, sid, rfl, ju, hju, ups, ⟨xs, rfl, hxs⟩, ji, hji, pi, rfl,
        jt, hjt, pt, rfl, heq⟩
      obtain ⟨rfl, rfl, rfl, rfl⟩ : sid = hsid ∧ ups = hups ∧ pi = hpi ∧ pt = hpt := by
        cases heq
        exact ⟨rfl, rfl, rfl, rfl⟩
      exact ⟨kvs, xs, rfl, hjs, hju, hxs, hji, hjt⟩
    · rintro ⟨kvs', xs, heq, h1, h2, h3, h4, h5⟩
      obtain rfl : kvs' = kvs := by cases heq; rfl
      exact ⟨.str hsid, h1, hsid, rfl, .arr xs, h2, hups, ⟨xs, rfl, h3⟩,
        .num (hpi : Int) true, h4, hpi, rfl, .num (hpt : Int) true, h5, hpt, rfl, rfl⟩
  | null => simp [handshakeFromJson]
  | bool b => simp [handshakeFromJson]
  | num n b => simp [handshakeFromJson]
  | str s => simp [handshakeFromJson]
  | arr xs => simp [handshakeFromJson]

/-- Claim C8: handshake parsing ignores the source packet's type field
entirely (only the payload is consulted); deserialization of a payload
value succeeds exactly when it is a JSON object containing `sid` (a
string), `upgrades` (an array of strings) and `pingInterval` /
`pingTimeout` (non-negative plain-integer numbers, camelCase wire
names); and on success every field of the result is read from the
payload — none is defaulted. -/
theorem handshake_parse_spec :
    (∀ pid1 pid2 data, handshakeTryFrom ⟨pid1, data⟩ = handshakeTryFrom ⟨pid2, data⟩)
    ∧ (∀ j, (handshakeFromJson j).isSome = true ↔ HandshakeWellFormed j)
    ∧ (∀ j h, handshakeFromJson j = some h →
        ∃ kvs xs, j = .obj kvs
          ∧ jsonLookup (("sid").toList) kvs = some (.str h.sid)
          ∧ jsonLookup (("upgrades").toList) kvs = some (.arr xs)
          ∧ jsonStrEntries xs = some h.upgrades
          ∧ jsonLookup (("pingInterval").toList) kvs =
              some (.num (h.ping_interval : Int) true)
          ∧ jsonLookup (("pingTimeout").toList) kvs =
              some (.num (h.ping_timeout : Int) true)) := by
  refine ⟨fun pid1 pid2 data => rfl, fun j => ?_,
    fun j h => handshakeFromJson_eq_some.mp⟩
  constructor
  · intro hs
    obtain ⟨h, hh⟩ := Option.isSome_iff_exists.mp hs
    obtain ⟨kvs, xs, rfl, h1, h2, h3, h4, h5⟩ := handshakeFromJson_eq_some.mp hh
    exact ⟨kvs, h.sid, xs, (h.ping_interval : Int), (h.ping_timeout : Int),
      rfl, h1, h2, jsonStrEntries_isSome.mp (by simp [h3]), h4,
      Int.natCast_nonneg _, h5, Int.natCast_nonneg _⟩
  · rintro ⟨kvs, s, xs, ni, nt, rfl, h1, h2, hstr, h4, hni, h5, hnt⟩
    obtain ⟨ups, hups⟩ :=
      Option.isSome_iff_exists.mp (jsonStrEntries_isSome.mpr hstr)
    have hsome : handshakeFromJson (.obj kvs) = some ⟨s, ups, ni.toNat, nt.toNat⟩ :=
      handshakeFromJson_eq_some.mpr ⟨kvs, xs, rfl, h1, h2, hups,
        by rw [Int.toNat_of_nonneg hni]; exact h4,
        by rw [Int.toNat_of_nonneg hnt]; exact h5⟩
    simp [hsome]

/-- Claim C8 witness: the field-extraction part of the handshake theorem
applied to a concrete handshake object. -/
theorem handshake_parse_spec_witness :
    ∃ kvs xs,
      Json.obj [((("sid").toList), .str (("T").toList)),
        ((("upgrades").toList), .arr [.str (("websocket").toList)]),
        ((("pingInterval").toList), .num 10000 true),
        ((("pingTimeout").toList), .num 1000 true)] = .obj kvs
      ∧ jsonLookup (("sid").toList) kvs =
          some (.str ((⟨(("T").toList), [(("websocket").toList)], 10000, 1000⟩ :
            HandshakePacket).sid))
      ∧ jsonLookup (("upgrades").toList) kvs = some (.arr xs)
      ∧ jsonStrEntries xs =
          some ((⟨(("T").toList), [(("websocket").toList)], 10000, 1000⟩ :
            HandshakePacket).upgrades)
      ∧ jsonLookup (("pingInterval").toList) kvs =
          some (.num ((⟨(("T").toList), [(("websocket").toList)], 10000, 1000⟩ :
            HandshakePacket).ping_interval : Int) true)
      ∧ jsonLookup (("pingTimeout").toList) kvs =
          some (.num ((⟨(("T").toList), [(("websocket").toList)], 10000, 1000⟩ :
            HandshakePacket).ping_timeout : Int) true) :=
  handshake_parse_spec.2.2 _ _ rfl
